import Mathlib

/-!
Verification of the git-anticipate session state machine and
resolution-replay engine (main.go) against its design document.

The embedding models the repository state a single invocation of the tool
observes and mutates: the on-disk session record (a directory of small
files inside the git metadata directory), the working tree, the index,
the commit store and the branch table.  Git itself is the external
collaborator; each git subprocess the Go code spawns is modelled by its
documented effect on this state, and genuinely external outcomes (the
three-way merge result, hook verdicts, write failures of the durable
medium) are supplied as oracle inputs.  File paths, file contents and
revision ids are modelled as strings at character granularity; all data
the tool itself manufactures (hex revision ids, state file names) is
ASCII, where Go byte indexing and character indexing coincide.
-/

set_option maxRecDepth 20000

namespace GitAnticipate

/-- Association list from string keys to values.  Models both git trees
(path to blob content) and the session state directory (file name to file
content).  Later bindings shadow earlier ones, so `insertA` below is plain
cons, mirroring file overwrite. -/
abbrev AList (α : Type) := List (String × α)

/-- First binding for a key, if any. -/
def lookupA {α : Type} : AList α → String → Option α
  | [], _ => none
  | (k, v) :: rest, q => if k = q then some v else lookupA rest q

/-- Remove every binding for a key (models file deletion). -/
def eraseA {α : Type} : AList α → String → AList α
  | [], _ => []
  | (k1, v) :: rest, k => if k1 = k then eraseA rest k else (k1, v) :: eraseA rest k

/-- Overwrite the binding for a key (models file overwrite). -/
def insertA {α : Type} (m : AList α) (k : String) (v : α) : AList α :=
  (k, v) :: m

@[simp] theorem lookupA_nil {α : Type} (q : String) : lookupA ([] : AList α) q = none := rfl

@[simp] theorem lookupA_cons {α : Type} (k : String) (v : α) (m : AList α) (q : String) :
    lookupA ((k, v) :: m) q = if k = q then some v else lookupA m q := rfl

@[simp] theorem lookupA_insert_self {α : Type} (m : AList α) (k : String) (v : α) :
    lookupA (insertA m k v) k = some v := by
  simp [insertA]

theorem lookupA_insert_ne {α : Type} (m : AList α) (k : String) (v : α) (q : String)
    (h : k ≠ q) : lookupA (insertA m k v) q = lookupA m q := by
  simp [insertA, h]

theorem lookupA_erase_self {α : Type} (m : AList α) (k : String) :
    lookupA (eraseA m k) k = none := by
  induction m with
  | nil => rfl
  | cons e rest ih =>
    obtain ⟨k1, v⟩ := e
    by_cases h : k1 = k
    · simpa [eraseA, h] using ih
    · simpa [eraseA, h] using ih

theorem lookupA_erase_ne {α : Type} (m : AList α) (k : String) (q : String) (h : k ≠ q) :
    lookupA (eraseA m k) q = lookupA m q := by
  induction m with
  | nil => rfl
  | cons e rest ih =>
    obtain ⟨k1, v⟩ := e
    by_cases he : k1 = k
    · simp [eraseA, he, h, ih]
    · by_cases hq : k1 = q
      · simp [eraseA, he, hq, Ne.symm h]
      · simp [eraseA, he, hq, ih]

theorem lookupA_eq_none_iff {α : Type} (m : AList α) (q : String) :
    lookupA m q = none ↔ q ∉ m.map Prod.fst := by
  induction m with
  | nil => simp
  | cons e rest ih =>
    rcases e with ⟨k, v⟩
    by_cases h : k = q
    · simp [h]
    · simp [h, ih, Ne.symm h]

/-- Git trees and directory contents: path (or file name) to content. -/
abbrev Fmap := AList String

/-- Result of one top-level command, reflecting the exit-code contract of
`main`: `ok` exits 0, `conflicts` (the `errConflicts` sentinel) exits 1,
any other error exits 2. -/
inductive CmdResult : Type
  | ok : CmdResult
  | conflicts : CmdResult
  | error : String → CmdResult
deriving DecidableEq, Repr

/-- Exit code produced by `main` for each command result. -/
def exitCode : CmdResult → Nat
  | .ok => 0
  | .conflicts => 1
  | .error _ => 2

/-- Outcome classification of `performMerge` (type `MergeResult` in the
source): clean, conflict, or a non-conflict failure. -/
inductive MergeResult : Type
  | mergeClean : MergeResult
  | mergeConflict : MergeResult
  | mergeError : MergeResult
deriving DecidableEq, Repr

/-- Observable effects of one invocation, recorded in order, used to state
the ordering requirements of the design (persist before merge; capture
before the trial merge is discarded). -/
inductive Event : Type
  | evSaveState : Event
  | evAttemptMerge : Event
  | evCapture : Event
  | evAbortMerge : Event
  | evReset : Event
  | evCommit : Event
  | evClearState : Event
deriving DecidableEq, Repr

/-- Position of the first occurrence of an event in a trace (length of the
trace when absent). -/
def evIndex : List Event → Event → Nat
  | [], _ => 0
  | e :: rest, x => if e = x then 0 else evIndex rest x + 1

/-- The four persisted session fields (struct-of-files in `.git/anticipate`). -/
structure Session : Type where
  target : String
  targetSHA : String
  currentBranch : String
  origHead : String
deriving DecidableEq, Repr

/-- Repository state as observed and mutated by one invocation.
`store` is the session state directory: `none` when absent, otherwise the
directory contents.  `commits` maps revision ids to trees; `branches`
maps ref names to revision ids (the domain of `git rev-parse --verify`).
`unmerged` is the set of paths with unmerged index entries. -/
structure RepoState : Type where
  store : Option Fmap
  wtree : Fmap
  index : Fmap
  headRev : String
  commits : AList Fmap
  branches : Fmap
  currentBranch : String
  mergeActive : Bool
  unmerged : List String
deriving DecidableEq, Repr

/-- Tree of the commit `HEAD` points at. -/
def headTreeOf (st : RepoState) : Fmap :=
  (lookupA st.commits st.headRev).getD []

/-- `isAnticipateInProgress`: `os.Stat(stateDir)` succeeds, i.e. the state
directory exists, regardless of which field files it holds. -/
def isAnticipateInProgress (store : Option Fmap) : Bool :=
  store.isSome

/-- The four field files `saveState` writes.  The Go source stores them in
a map and iterates it in unspecified order; the order fixed here is the
map-literal order of the source.  No property proved below depends on the
write order. -/
def sessionFiles (target origHead targetSHA currentBranch : String) : Fmap :=
  [("target", target), ("orig_head", origHead),
   ("target_sha", targetSHA), ("current_branch", currentBranch)]

/-- Write the field files one by one with `os.WriteFile`, stopping at the
first failure.  `oks` is the oracle of write outcomes (`headD true`: a
write for which no outcome is scripted succeeds).  Returns whether all
writes succeeded together with the resulting directory contents. -/
def writeFiles : Fmap → Fmap → List Bool → Bool × Fmap
  | d, [], _ => (true, d)
  | d, (n, v) :: rest, oks =>
    if oks.headD true then writeFiles (insertA d n v) rest oks.tail
    else (false, d)

/-- `saveState`: `os.MkdirAll` creates the state directory (keeping any
existing contents), then the four field files are written independently.
Directory creation is modelled as always succeeding; write failures are
scripted by `oks`. -/
def saveState (store : Option Fmap) (target origHead targetSHA currentBranch : String)
    (oks : List Bool) : Bool × Option Fmap :=
  let w := writeFiles (store.getD []) (sessionFiles target origHead targetSHA currentBranch) oks
  (w.1, some w.2)

/-- `removeState`: `os.RemoveAll` on the state directory. -/
def removeState (_store : Option Fmap) : Option Fmap :=
  none

/-- `strings.TrimSpace`, modelled at character granularity: drop leading
and trailing whitespace characters. -/
def trimS (s : String) : String :=
  String.mk (((s.data.dropWhile Char.isWhitespace).reverse.dropWhile Char.isWhitespace).reverse)

/-- Go string slicing `s[:n]`, at character granularity. -/
def takeS (s : String) (n : Nat) : String :=
  String.mk (s.data.take n)

/-- `readStateFile`: `os.ReadFile` of one field file (fails when the
directory or the file is absent), then `strings.TrimSpace`. -/
def readStateFile (store : Option Fmap) (name : String) : Except String String :=
  match store with
  | none => .error ("failed to read " ++ name)
  | some d =>
    match lookupA d name with
    | none => .error ("failed to read " ++ name)
    | some v => .ok (trimS v)

/-- The four reads `continueAnticipate` performs, in source order. -/
def readSession (store : Option Fmap) : Except String Session := do
  let target ← readStateFile store "target"
  let targetSHA ← readStateFile store "target_sha"
  let currentBranch ← readStateFile store "current_branch"
  let origHead ← readStateFile store "orig_head"
  return { target := target, targetSHA := targetSHA,
           currentBranch := currentBranch, origHead := origHead }

/-- `truncateSHA`: trim whitespace, shorten to the first 8 characters when
longer than 8, print `unknown` when empty. -/
def truncateSHA (sha : String) : String :=
  let s := trimS sha
  if 8 < s.length then takeS s 8
  else if s.length = 0 then "unknown"
  else s

/-- `hasUncommittedChanges`: `git status --porcelain` prints something,
i.e. the index differs from `HEAD` or the working tree differs from the
index (untracked files are working-tree entries absent from the index). -/
def hasUncommittedChanges (st : RepoState) : Bool :=
  !(decide (st.index = headTreeOf st) && decide (st.wtree = st.index))

/-- `hasStagedOrUnstagedChanges`: `git diff --cached --quiet` (index vs
`HEAD`) or `git diff --quiet` (working tree vs index) reports a
difference. -/
def hasStagedOrUnstagedChanges (st : RepoState) : Bool :=
  !(decide (st.index = headTreeOf st) && decide (st.wtree = st.index))

/-- `hasUnmergedFiles`: `git ls-files -u` prints something. -/
def hasUnmergedFiles (st : RepoState) : Bool :=
  !st.unmerged.isEmpty

/-- `abortMerge` (`git merge --abort`): when a merge is in progress,
restore working tree and index to the `HEAD` commit (which the
non-committing trial merge never moved) and drop the unmerged entries;
otherwise a no-op.  Never fails. -/
def abortMerge (st : RepoState) : RepoState :=
  if st.mergeActive then
    { st with wtree := headTreeOf st, index := headTreeOf st,
              mergeActive := false, unmerged := [] }
  else st

/-- The commit-failure error of `continueAnticipate` (the source wraps the
underlying commit error together with a retry hint; the wrapper text is
what distinguishes this failure). -/
def commitFailureMsg : String := "failed to create commit"

/-- Oracle for one continue invocation: the verdict of the `git commit`
subprocess (covering hook rejections and any other commit failure; the
`--no-verify` flag only changes which hooks git runs) and the id of the
commit it creates on success. -/
structure ContEnv : Type where
  commitOk : Bool
  newRev : String
deriving DecidableEq, Repr

/-- `git add -u`: for every tracked path (every index entry), re-stage the
current working-tree content, staging the deletion when the file is gone;
untracked files are not added. -/
def reconcileIndex (wtree index : Fmap) : Fmap :=
  index.filterMap (fun e => (lookupA wtree e.1).map (fun c => (e.1, c)))

/-- `git diff --cached --name-only`: paths whose index entry differs from
the `HEAD` tree. -/
def changedPaths (idx head : Fmap) : List String :=
  (((idx ++ head).map Prod.fst).dedup).filter (fun p => !(lookupA idx p == lookupA head p))

/-- `git diff --cached --name-only --diff-filter=D`: the changed paths
whose index entry is gone (present in `HEAD`, absent from the index). -/
def deletedOf (idx : Fmap) (changed : List String) : List String :=
  changed.filter (fun p => (lookupA idx p).isNone)

/-- The index after the `git add -u` step of `continueAnticipate`. -/
def trialIndex (st : RepoState) : Fmap :=
  reconcileIndex st.wtree st.index

/-- `changedFiles` of `continueAnticipate`: staged differences against the
original tip, computed after `git add -u`. -/
def trialChanged (st : RepoState) : List String :=
  changedPaths (trialIndex st) (headTreeOf st)

/-- `deletedFiles` of `continueAnticipate`. -/
def trialDeleted (st : RepoState) : List String :=
  deletedOf (trialIndex st) (trialChanged st)

/-- The repository state right after the `git add -u` step. -/
def withTrialIndex (st : RepoState) : RepoState :=
  { st with index := trialIndex st }

/-- `os.ReadFile` of every listed path from the working tree, collecting
`fileContents`; fails on the first unreadable path. -/
def captureContents (w : Fmap) : List String → Except String Fmap
  | [] => .ok []
  | p :: ps =>
    match lookupA w p with
    | none => .error ("failed to read resolved file " ++ p)
    | some c => (captureContents w ps).map (fun m => (p, c) :: m)

/-- `os.WriteFile` of every captured entry back into the restored working
tree (`os.MkdirAll` for parent directories has no analogue in the tree
model). -/
def writeBack (w : Fmap) : Fmap → Fmap
  | [] => w
  | (k, v) :: rest => writeBack (insertA w k v) rest

/-- `os.Remove` of every deleted path (errors ignored). -/
def removeAll (w : Fmap) : List String → Fmap
  | [] => w
  | p :: ps => removeAll (eraseA w p) ps

/-- The staging loop of `continueAnticipate`: `git rm --cached
--ignore-unmatch` for deleted paths (tolerant), `git add` for the rest
(fails when the file cannot be staged, i.e. is absent from the working
tree). -/
def stageAll (w : Fmap) (deleted : List String) : Fmap → List String → Except String Fmap
  | idx, [] => .ok idx
  | idx, p :: rest =>
    if p ∈ deleted then stageAll w deleted (eraseA idx p) rest
    else
      match lookupA w p with
      | some c => stageAll w deleted (insertA idx p c) rest
      | none => .error ("failed to stage file " ++ p)

/-- State after the destructive replay steps of `continueAnticipate`:
merge aborted, hard reset to the original tip (tree `tree`), captured
contents written back and deleted paths removed from the working tree. -/
def afterWriteBack (st : RepoState) (sess : Session) (tree contents : Fmap) : RepoState :=
  { abortMerge (withTrialIndex st) with
      wtree := removeAll (writeBack tree contents) (trialDeleted st),
      index := tree,
      headRev := sess.origHead,
      mergeActive := false,
      unmerged := [] }

/-- `continueAnticipate`: gate on an active session and on no unmerged
paths, read the session record, reconcile the index (`git add -u`),
compute changed and deleted paths, short-circuit when nothing changed,
capture the resolution from the trial-merge working tree, discard the
trial merge, hard-reset to the original tip, write the resolution back,
stage it, and commit. -/
def continueAnticipate (st : RepoState) (noVerify : Bool) (env : ContEnv) :
    CmdResult × RepoState × List Event :=
  if !(isAnticipateInProgress st.store) then
    (.error "no anticipate in progress", st, [])
  else if hasUnmergedFiles st then
    (.conflicts, st, [])
  else
    match readSession st.store with
    | .error e => (.error e, st, [])
    | .ok sess =>
      if (trialChanged st).isEmpty then
        (.ok, { abortMerge (withTrialIndex st) with store := removeState st.store },
         [.evAbortMerge, .evClearState])
      else
        match captureContents st.wtree
            ((trialChanged st).filter (fun p => decide (p ∉ trialDeleted st))) with
        | .error e => (.error e, withTrialIndex st, [])
        | .ok contents =>
          match lookupA st.commits sess.origHead with
          | none =>
            (.error "failed to reset to original state", abortMerge (withTrialIndex st),
             [.evCapture, .evAbortMerge])
          | some tree =>
            match stageAll (removeAll (writeBack tree contents) (trialDeleted st))
                (trialDeleted st) tree (trialChanged st) with
            | .error e =>
              (.error e, afterWriteBack st sess tree contents,
               [.evCapture, .evAbortMerge, .evReset])
            | .ok idx =>
              if env.commitOk then
                (.ok,
                 { afterWriteBack st sess tree contents with
                     index := idx,
                     headRev := env.newRev,
                     commits := insertA st.commits env.newRev idx,
                     store := removeState st.store },
                 [.evCapture, .evAbortMerge, .evReset, .evCommit, .evClearState])
              else
                (.error commitFailureMsg,
                 { afterWriteBack st sess tree contents with index := idx },
                 [.evCapture, .evAbortMerge, .evReset])

/-- Oracle for one start invocation: write outcomes for `saveState`, the
`git merge-base` verdict, and the effect of the trial merge (its
classification, the working tree and index it leaves behind, the unmerged
paths it flags, and diagnostic text on failure). -/
structure StartEnv : Type where
  saveOks : List Bool
  mergeBaseOk : Bool
  mergeOutcome : MergeResult
  mergeWtree : Fmap
  mergeIndex : Fmap
  mergeUnmerged : List String
  mergeErrMsg : String
deriving DecidableEq, Repr

/-- `startAnticipate`: precondition checks in source order (active
session, dirty tree, unknown target branch), revision resolution, state
persistence, the trial merge, and outcome classification.
`getCurrentBranch` and `getRevisionSHA HEAD` are modelled as infallible
(they only read `HEAD`, which exists in any repository the tool
validated). -/
def startAnticipate (st : RepoState) (targetBranch : String) (env : StartEnv) :
    CmdResult × RepoState × List Event :=
  if isAnticipateInProgress st.store then
    (.error "anticipate already in progress", st, [])
  else if hasUncommittedChanges st then
    (.error "you have uncommitted changes", st, [])
  else
    match lookupA st.branches targetBranch with
    | none => (.error "target branch does not exist", st, [])
    | some targetSHA =>
      if !env.mergeBaseOk then
        (.error "failed to get merge base", st, [])
      else
        let sv := saveState st.store targetBranch st.headRev targetSHA st.currentBranch env.saveOks
        if !sv.1 then
          (.error "failed to save state", { st with store := sv.2 }, [])
        else
          match env.mergeOutcome with
          | .mergeConflict =>
            (.conflicts,
             { st with store := sv.2, wtree := env.mergeWtree, index := env.mergeIndex,
                       mergeActive := true, unmerged := env.mergeUnmerged },
             [.evSaveState, .evAttemptMerge])
          | .mergeError =>
            (.error ("merge failed: " ++ env.mergeErrMsg),
             { st with store := removeState sv.2 },
             [.evSaveState, .evAttemptMerge, .evClearState])
          | .mergeClean =>
            let st2 : RepoState :=
              { st with store := sv.2, wtree := env.mergeWtree, index := env.mergeIndex,
                        mergeActive := true, unmerged := [] }
            if !(hasStagedOrUnstagedChanges st2) then
              (.ok, { st2 with store := removeState st2.store },
               [.evSaveState, .evAttemptMerge, .evClearState])
            else
              (.ok, st2, [.evSaveState, .evAttemptMerge])

/-- `abortAnticipate`: require an active session, abort any merge in
progress unconditionally, read the recorded original tip, hard-reset to
it, and clear the session record. -/
def abortAnticipate (st : RepoState) : CmdResult × RepoState × List Event :=
  if !(isAnticipateInProgress st.store) then
    (.error "no anticipate in progress", st, [])
  else
    let st1 := abortMerge st
    match readStateFile st1.store "orig_head" with
    | .error e => (.error e, st1, [.evAbortMerge])
    | .ok origHead =>
      match lookupA st1.commits origHead with
      | none => (.error "failed to reset to original state", st1, [.evAbortMerge])
      | some tree =>
        (.ok,
         { st1 with wtree := tree, index := tree, headRev := origHead,
                    mergeActive := false, unmerged := [], store := removeState st1.store },
         [.evAbortMerge, .evReset, .evClearState])

/-- `showStatus`: read-only; returns the command result, the unchanged
state, and the original-tip display (`none` when no session is active).
Field reads that fail are ignored, leaving the Go zero value `""`. -/
def showStatus (st : RepoState) : CmdResult × RepoState × Option String :=
  if !(isAnticipateInProgress st.store) then (.ok, st, none)
  else
    (.ok, st, some (truncateSHA (((readStateFile st.store "orig_head").toOption).getD "")))

/-- The mode flags of the command line. -/
structure Flags : Type where
  continueFlag : Bool
  abortFlag : Bool
  statusFlag : Bool
  noVerify : Bool
deriving DecidableEq, Repr

/-- `runAnticipate` dispatch, after repository validation succeeded:
`--status`, `--abort`, `--continue` in that order, then a positional
target branch starts a session; with no argument and no flag, an active
session shows the status and otherwise the usage error is returned. -/
def runAnticipate (st : RepoState) (flags : Flags) (args : Option String)
    (senv : StartEnv) (cenv : ContEnv) : CmdResult × RepoState :=
  if flags.statusFlag then ((showStatus st).1, (showStatus st).2.1)
  else if flags.abortFlag then ((abortAnticipate st).1, (abortAnticipate st).2.1)
  else if flags.continueFlag then
    ((continueAnticipate st flags.noVerify cenv).1,
     (continueAnticipate st flags.noVerify cenv).2.1)
  else
    match args with
    | none =>
      if isAnticipateInProgress st.store then ((showStatus st).1, (showStatus st).2.1)
      else (.error "usage: git anticipate target-branch", st)
    | some target => ((startAnticipate st target senv).1, (startAnticipate st target senv).2.1)

/-- Tree of the single commit of the concrete test repository: file `a`
with content `old`, file `d` with content `x`. -/
def tree0 : Fmap := [("a", "old"), ("d", "x")]

/-- Session state directory of the concrete test repository. -/
def store0 : Fmap :=
  [("target", "main"), ("orig_head", "r0"), ("target_sha", "t7"), ("current_branch", "feat")]

/-- Concrete mid-session state: commit `r0` checked out, an anticipate
session recorded, a trial merge in progress whose resolution modified `a`,
added `b` and deleted `d`, with everything staged and no unmerged paths. -/
def stTrial : RepoState :=
  { store := some store0
    wtree := [("a", "new"), ("b", "add")]
    index := [("a", "new"), ("b", "add"), ("d", "x")]
    headRev := "r0"
    commits := [("r0", tree0)]
    branches := [("main", "t7")]
    currentBranch := "feat"
    mergeActive := true
    unmerged := [] }

/-- The test repository with no session recorded and a clean tree. -/
def stIdle : RepoState :=
  { store := none
    wtree := tree0
    index := tree0
    headRev := "r0"
    commits := [("r0", tree0)]
    branches := [("main", "t7")]
    currentBranch := "feat"
    mergeActive := false
    unmerged := [] }

/-- All mode flags off. -/
def flagsNone : Flags :=
  { continueFlag := false, abortFlag := false, statusFlag := false, noVerify := false }

/-- A default start oracle: all writes succeed, merge base found, trial
merge conflicts on `a`. -/
def envStart0 : StartEnv :=
  { saveOks := [], mergeBaseOk := true, mergeOutcome := .mergeConflict,
    mergeWtree := [("a", "conflictmarkers"), ("d", "x")],
    mergeIndex := [("a", "old"), ("d", "x")],
    mergeUnmerged := ["a"], mergeErrMsg := "" }

/-- A default continue oracle: the commit succeeds and creates `r1`. -/
def envCont0 : ContEnv := { commitOk := true, newRev := "r1" }

theorem lookupA_isSome_of_mem_keys {α : Type} (m : AList α) (q : String)
    (h : q ∈ m.map Prod.fst) : (lookupA m q).isSome = true := by
  cases hl : lookupA m q with
  | none => exact absurd h ((lookupA_eq_none_iff m q).mp hl)
  | some v => rfl

theorem writeFiles_ok_lookup_ne (fs : Fmap) :
    ∀ (d : Fmap) (oks : List Bool) (d2 : Fmap) (n : String),
      writeFiles d fs oks = (true, d2) → n ∉ fs.map Prod.fst →
      lookupA d2 n = lookupA d n := by
  induction fs with
  | nil =>
    intro d oks d2 n h _
    simp [writeFiles] at h
    rw [h]
  | cons e rest ih =>
    intro d oks d2 n h hn
    obtain ⟨n1, v1⟩ := e
    simp only [List.map_cons, List.mem_cons] at hn
    push_neg at hn
    simp only [writeFiles] at h
    split at h
    · rw [ih _ _ _ _ h hn.2, lookupA_insert_ne _ _ _ _ (Ne.symm hn.1)]
    · exact absurd (Prod.mk.injEq _ _ _ _ ▸ h) (by simp)

theorem writeFiles_ok_lookup_mem (fs : Fmap) :
    ∀ (d : Fmap) (oks : List Bool) (d2 : Fmap) (n : String) (v : String),
      writeFiles d fs oks = (true, d2) → (fs.map Prod.fst).Nodup → (n, v) ∈ fs →
      lookupA d2 n = some v := by
  induction fs with
  | nil =>
    intro d oks d2 n v _ _ hm
    exact absurd hm (List.not_mem_nil _)
  | cons e rest ih =>
    intro d oks d2 n v h hnd hm
    obtain ⟨n1, v1⟩ := e
    simp only [List.map_cons, List.nodup_cons] at hnd
    simp only [writeFiles] at h
    split at h
    · rcases List.mem_cons.mp hm with heq | hmem
      · obtain ⟨rfl, rfl⟩ := Prod.mk.injEq .. ▸ heq
        rw [writeFiles_ok_lookup_ne rest _ _ _ _ h hnd.1]
        exact lookupA_insert_self _ _ _
      · exact ih _ _ _ _ _ h hnd.2 hmem
    · exact absurd (Prod.mk.injEq _ _ _ _ ▸ h) (by simp)

theorem captureContents_keys (w : Fmap) :
    ∀ (paths : List String) (m : Fmap),
      captureContents w paths = .ok m → m.map Prod.fst = paths := by
  intro paths
  induction paths with
  | nil =>
    intro m h
    simp [captureContents] at h
    subst h
    rfl
  | cons p ps ih =>
    intro m h
    simp only [captureContents] at h
    cases hw : lookupA w p with
    | none => rw [hw] at h; exact absurd h (by simp)
    | some c =>
      rw [hw] at h
      cases hrest : captureContents w ps with
      | error e => rw [hrest] at h; exact absurd h (by simp [Except.map])
      | ok m0 =>
        rw [hrest] at h
        simp only [Except.map, Except.ok.injEq] at h
        rw [← h]
        simp [ih m0 hrest]

theorem captureContents_lookup_mem (w : Fmap) :
    ∀ (paths : List String) (m : Fmap) (q : String),
      captureContents w paths = .ok m → q ∈ paths →
      lookupA m q = lookupA w q := by
  intro paths
  induction paths with
  | nil =>
    intro m q _ hq
    exact absurd hq (List.not_mem_nil _)
  | cons p ps ih =>
    intro m q h hq
    simp only [captureContents] at h
    cases hw : lookupA w p with
    | none => rw [hw] at h; exact absurd h (by simp)
    | some c =>
      rw [hw] at h
      cases hrest : captureContents w ps with
      | error e => rw [hrest] at h; exact absurd h (by simp [Except.map])
      | ok m0 =>
        rw [hrest] at h
        simp only [Except.map, Except.ok.injEq] at h
        subst h
        by_cases hqp : p = q
        · subst hqp; simp [hw]
        · rcases List.mem_cons.mp hq with rfl | hmem
          · exact absurd rfl hqp
          · simp only [lookupA_cons, hqp, if_false]
            exact ih m0 q hrest hmem

theorem captureContents_consistent (w : Fmap) :
    ∀ (paths : List String) (m : Fmap),
      captureContents w paths = .ok m → ∀ e ∈ m, lookupA w e.1 = some e.2 := by
  intro paths
  induction paths with
  | nil =>
    intro m h e he
    simp [captureContents] at h
    subst h
    exact absurd he (List.not_mem_nil _)
  | cons p ps ih =>
    intro m h e he
    simp only [captureContents] at h
    cases hw : lookupA w p with
    | none => rw [hw] at h; exact absurd h (by simp)
    | some c =>
      rw [hw] at h
      cases hrest : captureContents w ps with
      | error e0 => rw [hrest] at h; exact absurd h (by simp [Except.map])
      | ok m0 =>
        rw [hrest] at h
        simp only [Except.map, Except.ok.injEq] at h
        subst h
        rcases List.mem_cons.mp he with rfl | hmem
        · exact hw
        · exact ih m0 hrest e hmem

theorem writeBack_lookup_notmem :
    ∀ (m w : Fmap) (q : String), q ∉ m.map Prod.fst →
      lookupA (writeBack w m) q = lookupA w q := by
  intro m
  induction m with
  | nil => intro w q _; rfl
  | cons e rest ih =>
    intro w q hq
    obtain ⟨k, v⟩ := e
    simp only [List.map_cons, List.mem_cons] at hq
    push_neg at hq
    simp only [writeBack]
    rw [ih _ _ hq.2, lookupA_insert_ne _ _ _ _ (Ne.symm hq.1)]

theorem writeBack_lookup_mem (w0 : Fmap) :
    ∀ (m w : Fmap) (q : String),
      (∀ e ∈ m, lookupA w0 e.1 = some e.2) → q ∈ m.map Prod.fst →
      lookupA (writeBack w m) q = lookupA w0 q := by
  intro m
  induction m with
  | nil =>
    intro w q _ hq
    exact absurd hq (List.not_mem_nil _)
  | cons e rest ih =>
    intro w q hcons hq
    obtain ⟨k, v⟩ := e
    simp only [writeBack]
    by_cases hmem : q ∈ rest.map Prod.fst
    · exact ih _ _ (fun e he => hcons e (List.mem_cons_of_mem _ he)) hmem
    · simp only [List.map_cons, List.mem_cons] at hq
      rcases hq with rfl | hq
      · rw [writeBack_lookup_notmem _ _ _ hmem, lookupA_insert_self]
        exact (hcons (q, v) (List.mem_cons_self _ _)).symm
      · exact absurd hq hmem

theorem removeAll_lookup_notmem :
    ∀ (ps : List String) (w : Fmap) (q : String), q ∉ ps →
      lookupA (removeAll w ps) q = lookupA w q := by
  intro ps
  induction ps with
  | nil => intro w q _; rfl
  | cons p rest ih =>
    intro w q hq
    simp only [List.mem_cons] at hq
    push_neg at hq
    simp only [removeAll]
    rw [ih _ _ hq.2, lookupA_erase_ne _ _ _ (Ne.symm hq.1)]

theorem removeAll_lookup_mem :
    ∀ (ps : List String) (w : Fmap) (q : String), q ∈ ps →
      lookupA (removeAll w ps) q = none := by
  intro ps
  induction ps with
  | nil =>
    intro w q hq
    exact absurd hq (List.not_mem_nil _)
  | cons p rest ih =>
    intro w q hq
    simp only [removeAll]
    by_cases hmem : q ∈ rest
    · exact ih _ _ hmem
    · rcases List.mem_cons.mp hq with rfl | hq2
      · rw [removeAll_lookup_notmem _ _ _ hmem, lookupA_erase_self]
      · exact absurd hq2 hmem

theorem stageAll_lookup (w : Fmap) (deleted : List String) :
    ∀ (changed : List String) (idx out : Fmap),
      stageAll w deleted idx changed = .ok out →
      ∀ q : String,
        lookupA out q =
          if q ∈ changed then (if q ∈ deleted then none else lookupA w q)
          else lookupA idx q := by
  intro changed
  induction changed with
  | nil =>
    intro idx out h q
    simp only [stageAll, Except.ok.injEq] at h
    subst h
    simp
  | cons p rest ih =>
    intro idx out h q
    simp only [stageAll] at h
    by_cases hp : p ∈ deleted
    · rw [if_pos hp] at h
      have hq := ih _ _ h q
      by_cases hqr : q ∈ rest
      · simp only [hqr, if_true] at hq
        simp [List.mem_cons, hqr, hq]
      · by_cases hqp : q = p
        · subst hqp
          simp only [hqr, if_false] at hq
          rw [lookupA_erase_self] at hq
          simp [hq, hp]
        · simp only [hqr, if_false] at hq
          rw [lookupA_erase_ne _ _ _ (fun he => hqp he.symm)] at hq
          simp [List.mem_cons, hqp, hqr, hq]
    · rw [if_neg hp] at h
      cases hw : lookupA w p with
      | none => rw [hw] at h; exact absurd h (by simp)
      | some c =>
        rw [hw] at h
        have hq := ih _ _ h q
        by_cases hqr : q ∈ rest
        · simp only [hqr, if_true] at hq
          simp [List.mem_cons, hqr, hq]
        · by_cases hqp : q = p
          · subst hqp
            simp only [hqr, if_false] at hq
            rw [lookupA_insert_self] at hq
            simp [hq, hp, hw]
          · simp only [hqr, if_false] at hq
            rw [lookupA_insert_ne _ _ _ _ (fun he => hqp he.symm)] at hq
            simp [List.mem_cons, hqp, hqr, hq]

/-- C9: for every stored original-tip string, the status display shortens
the trimmed value to its first 8 characters when longer than 8 characters,
prints the literal `unknown` when it is empty after trimming whitespace,
and prints it unchanged otherwise (the stored value is itself trimmed on
read, so the displayed value is `truncateSHA` of the trimmed string);
`showStatus` always reports success (exit code 0) and returns the state
unchanged. -/
theorem truncateSHA_showStatus_spec (s : String) :
    (8 < (trimS s).length → truncateSHA s = takeS (trimS s) 8) ∧
    ((trimS s).length = 0 → truncateSHA s = "unknown") ∧
    (trimS s = s → 0 < s.length → s.length ≤ 8 → truncateSHA s = s) ∧
    (∀ st : RepoState, (showStatus st).1 = CmdResult.ok ∧ (showStatus st).2.1 = st ∧
      exitCode (showStatus st).1 = 0) := by
  refine ⟨?_, ?_, ?_, ?_⟩
  · intro h
    simp [truncateSHA, h]
  · intro h
    have h8 : ¬ 8 < (trimS s).length := by omega
    simp [truncateSHA, h8, h]
  · intro ht h0 h8
    have ha : ¬ 8 < s.length := by omega
    have hb : ¬ s.length = 0 := by omega
    simp [truncateSHA, ht, ha, hb]
  · intro st
    cases h : isAnticipateInProgress st.store <;>
      simp [showStatus, h, exitCode]

/-- Witness for C9 at concrete inputs. -/
theorem truncateSHA_showStatus_spec_witness :
    truncateSHA "abcdef0123" = takeS (trimS "abcdef0123") 8 ∧
    truncateSHA " " = "unknown" ∧
    truncateSHA "abc" = "abc" ∧
    (showStatus stTrial).1 = CmdResult.ok :=
  ⟨(truncateSHA_showStatus_spec "abcdef0123").1 (by decide),
   (truncateSHA_showStatus_spec " ").2.1 (by decide),
   (truncateSHA_showStatus_spec "abc").2.2.1 (by decide) (by decide) (by decide),
   ((truncateSHA_showStatus_spec "").2.2.2 stTrial).1⟩

/-- C3: with an active session, whenever any path is unmerged, `continue`
returns the conflicts outcome (exit code 1) regardless of anything staged
elsewhere, and performs no mutation at all: the returned state is the
input state, session record, index and working tree included. -/
theorem continue_conflict_gating (st : RepoState) (nv : Bool) (env : ContEnv)
    (h1 : st.store.isSome = true) (h2 : st.unmerged ≠ []) :
    continueAnticipate st nv env = (.conflicts, st, []) ∧ exitCode .conflicts = 1 := by
  refine ⟨?_, rfl⟩
  have hb : hasUnmergedFiles st = true := by
    cases hu : st.unmerged with
    | nil => exact absurd hu h2
    | cons a l => simp [hasUnmergedFiles, hu]
  simp [continueAnticipate, isAnticipateInProgress, h1, hb]

/-- Witness for C3: a session with an unresolved conflict on `a`. -/
theorem continue_conflict_gating_witness :
    continueAnticipate { stTrial with unmerged := ["a"] } false envCont0 =
      (.conflicts, { stTrial with unmerged := ["a"] }, []) ∧
    exitCode .conflicts = 1 :=
  continue_conflict_gating { stTrial with unmerged := ["a"] } false envCont0 rfl (by decide)

/-- C10: invoking the program with no positional argument and none of the
mode flags shows the status report and exits 0 when a session record
exists, and fails with the usage error (exit code 2) when none does. -/
theorem run_bare_invocation (st : RepoState) (flags : Flags)
    (senv : StartEnv) (cenv : ContEnv)
    (hs : flags.statusFlag = false) (ha : flags.abortFlag = false)
    (hc : flags.continueFlag = false) :
    (st.store.isSome = true →
      runAnticipate st flags none senv cenv = (.ok, st) ∧ exitCode .ok = 0) ∧
    (st.store.isSome = false →
      runAnticipate st flags none senv cenv =
        (.error "usage: git anticipate target-branch", st) ∧
      exitCode (.error "usage: git anticipate target-branch") = 2) := by
  constructor
  · intro h
    refine ⟨?_, rfl⟩
    simp [runAnticipate, hs, ha, hc, isAnticipateInProgress, h, showStatus]
  · intro h
    refine ⟨?_, rfl⟩
    simp [runAnticipate, hs, ha, hc, isAnticipateInProgress, h]

/-- Witness for C10 at the two concrete repository states. -/
theorem run_bare_invocation_witness :
    runAnticipate stTrial flagsNone none envStart0 envCont0 = (.ok, stTrial) ∧
    runAnticipate stIdle flagsNone none envStart0 envCont0 =
      (.error "usage: git anticipate target-branch", stIdle) :=
  ⟨((run_bare_invocation stTrial flagsNone envStart0 envCont0 rfl rfl rfl).1 rfl).1,
   ((run_bare_invocation stIdle flagsNone envStart0 envCont0 rfl rfl rfl).2 rfl).1⟩

/-- C2 counterexample: a `save` that fails on its very first field write
(from an empty store) does not leave the store as if `save` was never
called — the state directory created by `MkdirAll` is already visible, so
`exists()` reports a session while no field is readable.  Visibility is
flipped by directory creation before the four independent field writes,
not by a single atomic operation publishing all fields. -/
theorem saveState_partial_write_visible :
    (saveState none "main" "r0" "t7" "feat" [false]).1 = false ∧
    isAnticipateInProgress (saveState none "main" "r0" "t7" "feat" [false]).2 = true ∧
    isAnticipateInProgress none = false ∧
    readStateFile (saveState none "main" "r0" "t7" "feat" [false]).2 "orig_head" =
      .error "failed to read orig_head" :=
  ⟨rfl, rfl, rfl, rfl⟩

/-- C2 (amended): `save` is not all-or-nothing with respect to
`exists`/`load`.  After any `save` attempt, successful or not, the state
directory exists, so `exists()` reports a session in progress; only a
fully successful `save` guarantees that all four fields are recorded and
readable (modulo whitespace trimming on read).  A `save` that fails
partway leaves a visible record whose missing fields make `load` fail. -/
theorem saveState_visibility (store : Option Fmap) (t o s c : String) (oks : List Bool) :
    isAnticipateInProgress (saveState store t o s c oks).2 = true ∧
    ((saveState store t o s c oks).1 = true →
      readStateFile (saveState store t o s c oks).2 "target" = .ok (trimS t) ∧
      readStateFile (saveState store t o s c oks).2 "orig_head" = .ok (trimS o) ∧
      readStateFile (saveState store t o s c oks).2 "target_sha" = .ok (trimS s) ∧
      readStateFile (saveState store t o s c oks).2 "current_branch" = .ok (trimS c)) := by
  constructor
  · rfl
  · intro h
    have h' : writeFiles (store.getD []) (sessionFiles t o s c) oks =
        (true, (writeFiles (store.getD []) (sessionFiles t o s c) oks).2) := by
      rw [← h]
      rfl
    have hnd : ((sessionFiles t o s c).map Prod.fst).Nodup := by
      simp [sessionFiles]
    refine ⟨?_, ?_, ?_, ?_⟩
    · have hl := writeFiles_ok_lookup_mem (sessionFiles t o s c) _ _ _ "target" t h' hnd
        (by simp [sessionFiles])
      simp [readStateFile, saveState, hl]
    · have hl := writeFiles_ok_lookup_mem (sessionFiles t o s c) _ _ _ "orig_head" o h' hnd
        (by simp [sessionFiles])
      simp [readStateFile, saveState, hl]
    · have hl := writeFiles_ok_lookup_mem (sessionFiles t o s c) _ _ _ "target_sha" s h' hnd
        (by simp [sessionFiles])
      simp [readStateFile, saveState, hl]
    · have hl := writeFiles_ok_lookup_mem (sessionFiles t o s c) _ _ _ "current_branch" c h' hnd
        (by simp [sessionFiles])
      simp [readStateFile, saveState, hl]

/-- Witness for the amended C2: a fully successful save records all four
fields. -/
theorem saveState_visibility_witness :
    isAnticipateInProgress (saveState none "main" "r0" "t7" "feat" []).2 = true ∧
    readStateFile (saveState none "main" "r0" "t7" "feat" []).2 "orig_head" =
      .ok (trimS "r0") :=
  ⟨(saveState_visibility none "main" "r0" "t7" "feat" []).1,
   ((saveState_visibility none "main" "r0" "t7" "feat" []).2 rfl).2.1⟩

/-- C7: `startAnticipate` checks its preconditions in order — session
already exists, then uncommitted changes, then unresolvable target branch
— each failing fast with the input state returned entirely unchanged; in
particular a start during an active session fails and leaves the existing
session record (and everything else) untouched. -/
theorem start_precondition_order (st : RepoState) (tb : String) (env : StartEnv) :
    (st.store.isSome = true →
      startAnticipate st tb env = (.error "anticipate already in progress", st, [])) ∧
    (st.store.isSome = false → hasUncommittedChanges st = true →
      startAnticipate st tb env = (.error "you have uncommitted changes", st, [])) ∧
    (st.store.isSome = false → hasUncommittedChanges st = false →
      lookupA st.branches tb = none →
      startAnticipate st tb env = (.error "target branch does not exist", st, [])) := by
  refine ⟨?_, ?_, ?_⟩
  · intro h
    simp [startAnticipate, isAnticipateInProgress, h]
  · intro h hd
    simp [startAnticipate, isAnticipateInProgress, h, hd]
  · intro h hd hb
    simp [startAnticipate, isAnticipateInProgress, h, hd, hb]

/-- Witness for C7: the three precondition failures at concrete states. -/
theorem start_precondition_order_witness :
    startAnticipate stTrial "main" envStart0 =
      (.error "anticipate already in progress", stTrial, []) ∧
    startAnticipate { stIdle with wtree := [("a", "edited"), ("d", "x")] } "main" envStart0 =
      (.error "you have uncommitted changes",
       { stIdle with wtree := [("a", "edited"), ("d", "x")] }, []) ∧
    startAnticipate stIdle "nosuch" envStart0 =
      (.error "target branch does not exist", stIdle, []) :=
  ⟨(start_precondition_order stTrial "main" envStart0).1 rfl,
   (start_precondition_order { stIdle with wtree := [("a", "edited"), ("d", "x")] }
      "main" envStart0).2.1 rfl (by decide),
   (start_precondition_order stIdle "nosuch" envStart0).2.2 rfl (by decide) (by decide)⟩

/-- C4: classification of the trial-merge outcome by `startAnticipate`:
`Conflict` leaves the session persisted and returns the conflicts signal
(exit 1); `Error` clears the session record and surfaces the merge
failure (exit 2); `Clean` without staged or unstaged changes clears the
session and reports no-op success (exit 0); `Clean` with changes leaves
the session persisted and reports success (exit 0). -/
theorem start_outcome_classification (st : RepoState) (tb : String) (env : StartEnv)
    (tsha : String) (store2 : Option Fmap)
    (h1 : st.store.isSome = false)
    (h2 : hasUncommittedChanges st = false)
    (h3 : lookupA st.branches tb = some tsha)
    (h4 : env.mergeBaseOk = true)
    (hSave : saveState st.store tb st.headRev tsha st.currentBranch env.saveOks =
      (true, store2)) :
    (env.mergeOutcome = .mergeConflict →
      startAnticipate st tb env =
        (.conflicts,
         { st with store := store2, wtree := env.mergeWtree, index := env.mergeIndex,
                   mergeActive := true, unmerged := env.mergeUnmerged },
         [.evSaveState, .evAttemptMerge]) ∧
      store2.isSome = true ∧ exitCode .conflicts = 1) ∧
    (env.mergeOutcome = .mergeError →
      startAnticipate st tb env =
        (.error ("merge failed: " ++ env.mergeErrMsg), { st with store := none },
         [.evSaveState, .evAttemptMerge, .evClearState]) ∧
      exitCode (.error ("merge failed: " ++ env.mergeErrMsg)) = 2) ∧
    (env.mergeOutcome = .mergeClean →
      hasStagedOrUnstagedChanges
        { st with store := store2, wtree := env.mergeWtree, index := env.mergeIndex,
                  mergeActive := true, unmerged := [] } = false →
      startAnticipate st tb env =
        (.ok,
         { st with store := none, wtree := env.mergeWtree, index := env.mergeIndex,
                   mergeActive := true, unmerged := [] },
         [.evSaveState, .evAttemptMerge, .evClearState]) ∧
      exitCode .ok = 0) ∧
    (env.mergeOutcome = .mergeClean →
      hasStagedOrUnstagedChanges
        { st with store := store2, wtree := env.mergeWtree, index := env.mergeIndex,
                  mergeActive := true, unmerged := [] } = true →
      startAnticipate st tb env =
        (.ok,
         { st with store := store2, wtree := env.mergeWtree, index := env.mergeIndex,
                   mergeActive := true, unmerged := [] },
         [.evSaveState, .evAttemptMerge]) ∧
      store2.isSome = true ∧ exitCode .ok = 0) := by
  have hs2 : store2.isSome = true := by
    rw [show store2 = (saveState st.store tb st.headRev tsha st.currentBranch env.saveOks).2
      from (congrArg Prod.snd hSave).symm]
    rfl
  refine ⟨?_, ?_, ?_, ?_⟩
  · intro hm
    refine ⟨?_, hs2, rfl⟩
    simp [startAnticipate, isAnticipateInProgress, h1, h2, h3, h4, hSave, hm]
  · intro hm
    refine ⟨?_, rfl⟩
    simp [startAnticipate, isAnticipateInProgress, h1, h2, h3, h4, hSave, hm, removeState]
  · intro hm hch
    refine ⟨?_, rfl⟩
    simp [startAnticipate, isAnticipateInProgress, h1, h2, h3, h4, hSave, hm, hch, removeState]
  · intro hm hch
    refine ⟨?_, hs2, rfl⟩
    simp [startAnticipate, isAnticipateInProgress, h1, h2, h3, h4, hSave, hm, hch]

/-- The state directory a fully successful save produces in the concrete
test repository. -/
def store2W : Option Fmap :=
  some [("current_branch", "feat"), ("target_sha", "t7"),
        ("orig_head", "r0"), ("target", "main")]

/-- Start oracle for a clean trial merge that staged changes. -/
def envCleanCh : StartEnv :=
  { envStart0 with
    mergeOutcome := .mergeClean
    mergeWtree := [("a", "new"), ("d", "x")]
    mergeIndex := [("a", "new"), ("d", "x")]
    mergeUnmerged := [] }

/-- Witness for C4: the conflict branch and the clean-with-changes branch
at concrete inputs. -/
theorem start_outcome_classification_witness :
    startAnticipate stIdle "main" envStart0 =
      (.conflicts,
       { stIdle with store := store2W, wtree := envStart0.mergeWtree,
                     index := envStart0.mergeIndex, mergeActive := true,
                     unmerged := envStart0.mergeUnmerged },
       [.evSaveState, .evAttemptMerge]) ∧
    startAnticipate stIdle "main" envCleanCh =
      (.ok,
       { stIdle with store := store2W, wtree := envCleanCh.mergeWtree,
                     index := envCleanCh.mergeIndex, mergeActive := true,
                     unmerged := [] },
       [.evSaveState, .evAttemptMerge]) :=
  ⟨((start_outcome_classification stIdle "main" envStart0 "t7" store2W rfl (by decide)
      rfl rfl rfl).1 rfl).1,
   ((start_outcome_classification stIdle "main" envCleanCh "t7" store2W rfl (by decide)
      rfl rfl rfl).2.2.2 rfl (by decide)).1⟩

/-- C8: in every run of `startAnticipate` whose trace contains the merge
attempt, the session record was persisted strictly before the merge was
attempted. -/
theorem start_saves_before_merge (st : RepoState) (tb : String) (env : StartEnv)
    (r : CmdResult) (st' : RepoState) (tr : List Event)
    (h : startAnticipate st tb env = (r, st', tr))
    (hm : Event.evAttemptMerge ∈ tr) :
    Event.evSaveState ∈ tr ∧
    evIndex tr .evSaveState < evIndex tr .evAttemptMerge := by
  simp only [startAnticipate] at h
  split at h
  · simp only [Prod.mk.injEq] at h
    obtain ⟨rfl, rfl, rfl⟩ := h
    exact absurd hm (by decide)
  split at h
  · simp only [Prod.mk.injEq] at h
    obtain ⟨rfl, rfl, rfl⟩ := h
    exact absurd hm (by decide)
  split at h
  · simp only [Prod.mk.injEq] at h
    obtain ⟨rfl, rfl, rfl⟩ := h
    exact absurd hm (by decide)
  split at h
  · simp only [Prod.mk.injEq] at h
    obtain ⟨rfl, rfl, rfl⟩ := h
    exact absurd hm (by decide)
  split at h
  · simp only [Prod.mk.injEq] at h
    obtain ⟨rfl, rfl, rfl⟩ := h
    exact absurd hm (by decide)
  split at h
  · simp only [Prod.mk.injEq] at h
    obtain ⟨rfl, rfl, rfl⟩ := h
    exact ⟨by decide, by decide⟩
  · simp only [Prod.mk.injEq] at h
    obtain ⟨rfl, rfl, rfl⟩ := h
    exact ⟨by decide, by decide⟩
  split at h
  · simp only [Prod.mk.injEq] at h
    obtain ⟨rfl, rfl, rfl⟩ := h
    exact ⟨by decide, by decide⟩
  · simp only [Prod.mk.injEq] at h
    obtain ⟨rfl, rfl, rfl⟩ := h
    exact ⟨by decide, by decide⟩

/-- Witness for C8: the conflict run of the concrete repository. -/
theorem start_saves_before_merge_witness :
    Event.evSaveState ∈ (startAnticipate stIdle "main" envStart0).2.2 ∧
    evIndex (startAnticipate stIdle "main" envStart0).2.2 .evSaveState <
      evIndex (startAnticipate stIdle "main" envStart0).2.2 .evAttemptMerge :=
  start_saves_before_merge stIdle "main" envStart0
    (startAnticipate stIdle "main" envStart0).1
    (startAnticipate stIdle "main" envStart0).2.1
    (startAnticipate stIdle "main" envStart0).2.2
    rfl (by decide)

/-- Arbitrary user activity between `start` and `abort`: editing
working-tree files, staging, resolving or creating conflicts.  It cannot
touch the commit store, the branch table, `HEAD` or the session
directory. -/
def userEdit (st : RepoState) (W I : Fmap) (U : List String) (M : Bool) : RepoState :=
  { st with wtree := W, index := I, unmerged := U, mergeActive := M }

/-- C6: `abort` fails with the no-session error when no session exists;
otherwise — here after a `start` whose trial merge conflicted, and for
any user edits made since (any working tree, index, unmerged set and
merge flag) — it aborts the merge unconditionally, hard-resets to the
recorded original tip and clears the record, in that order, restoring
working tree, index and revision bit-identical to the state immediately
before `start`. -/
theorem abort_restores_prestart (st0 : RepoState) (tb : String) (env : StartEnv)
    (W I : Fmap) (U : List String) (M : Bool) (tsha : String) (tree0m : Fmap)
    (r : CmdResult) (st1 : RepoState) (tr : List Event)
    (h0 : st0.store = none)
    (h1 : hasUncommittedChanges st0 = false)
    (h2 : lookupA st0.branches tb = some tsha)
    (h3 : env.mergeBaseOk = true)
    (h4 : env.saveOks = [])
    (h5 : env.mergeOutcome = .mergeConflict)
    (h6 : trimS st0.headRev = st0.headRev)
    (h7 : lookupA st0.commits st0.headRev = some tree0m)
    (hStart : startAnticipate st0 tb env = (r, st1, tr)) :
    (∀ s : RepoState, s.store = none →
      abortAnticipate s = (.error "no anticipate in progress", s, [])) ∧
    (abortAnticipate (userEdit st1 W I U M)).1 = .ok ∧
    (abortAnticipate (userEdit st1 W I U M)).2.1.wtree = st0.wtree ∧
    (abortAnticipate (userEdit st1 W I U M)).2.1.index = st0.index ∧
    (abortAnticipate (userEdit st1 W I U M)).2.1.headRev = st0.headRev ∧
    (abortAnticipate (userEdit st1 W I U M)).2.1.store = none ∧
    (abortAnticipate (userEdit st1 W I U M)).2.2 =
      [.evAbortMerge, .evReset, .evClearState] := by
  have hns : ∀ s : RepoState, s.store = none →
      abortAnticipate s = (.error "no anticipate in progress", s, []) := by
    intro s hs
    simp [abortAnticipate, isAnticipateInProgress, hs]
  have hch : st0.index = headTreeOf st0 ∧ st0.wtree = st0.index := by
    have hb := h1
    unfold hasUncommittedChanges at hb
    simpa using hb
  have htree : headTreeOf st0 = tree0m := by
    simp [headTreeOf, h7]
  simp [startAnticipate, isAnticipateInProgress, h0, h1, h2, h3, h4, h5,
    saveState, writeFiles, sessionFiles, insertA] at hStart
  obtain ⟨hr, hst, htr⟩ := hStart
  subst hst
  refine ⟨hns, ?_⟩
  cases M <;>
    simp [abortAnticipate, userEdit, abortMerge, isAnticipateInProgress,
      readStateFile, removeState, h6, h7, htree, hch.2, hch.1]

/-- C5: when everything up to the commit succeeds but the commit itself
fails (for example a hook rejection), `continue` returns the commit error
(exit 2) while the session record remains exactly as persisted and the
working tree and index remain exactly as staged for the commit, so a
subsequent `continue` can retry; the record is cleared only on commit
success. -/
theorem continue_commit_failure (st : RepoState) (nv : Bool) (env : ContEnv)
    (sess : Session) (contents tree idx : Fmap)
    (h1 : st.store.isSome = true)
    (h2 : st.unmerged = [])
    (h3 : readSession st.store = .ok sess)
    (h4 : (trialChanged st).isEmpty = false)
    (h5 : captureContents st.wtree
        ((trialChanged st).filter (fun p => decide (p ∉ trialDeleted st))) = .ok contents)
    (h6 : lookupA st.commits sess.origHead = some tree)
    (h7 : stageAll (removeAll (writeBack tree contents) (trialDeleted st))
        (trialDeleted st) tree (trialChanged st) = .ok idx)
    (h8 : env.commitOk = false) :
    continueAnticipate st nv env =
      (.error commitFailureMsg,
       { afterWriteBack st sess tree contents with index := idx },
       [.evCapture, .evAbortMerge, .evReset]) ∧
    ({ afterWriteBack st sess tree contents with index := idx }).store = st.store ∧
    ({ afterWriteBack st sess tree contents with index := idx }).index = idx ∧
    ({ afterWriteBack st sess tree contents with index := idx }).wtree =
      removeAll (writeBack tree contents) (trialDeleted st) ∧
    exitCode (.error commitFailureMsg) = 2 := by
  have hu : hasUnmergedFiles st = false := by
    simp [hasUnmergedFiles, h2]
  have hstore : (abortMerge (withTrialIndex st)).store = st.store := by
    cases hm : st.mergeActive <;> simp [abortMerge, withTrialIndex, hm]
  have h5' := h5
  simp only [decide_not] at h5'
  refine ⟨?_, ?_, rfl, rfl, rfl⟩
  · simp [continueAnticipate, isAnticipateInProgress, h1, hu, h3, h4, h5', h6, h7, h8]
  · simpa [afterWriteBack] using hstore

/-- The session record of the concrete test repository, as `load` reads
it. -/
def sessW : Session :=
  { target := "main", targetSHA := "t7", currentBranch := "feat", origHead := "r0" }

/-- Captured resolution contents of the concrete trial merge. -/
def contentsW : Fmap := [("b", "add"), ("a", "new")]

/-- Staged index of the concrete replay. -/
def idxW : Fmap := [("a", "new"), ("b", "add"), ("a", "old")]

/-- Witness for C5: the concrete trial-merge state with a failing commit. -/
theorem continue_commit_failure_witness :
    continueAnticipate stTrial false { commitOk := false, newRev := "r1" } =
      (.error commitFailureMsg,
       { afterWriteBack stTrial sessW tree0 contentsW with index := idxW },
       [.evCapture, .evAbortMerge, .evReset]) ∧
    ({ afterWriteBack stTrial sessW tree0 contentsW with index := idxW }).store =
      stTrial.store :=
  have h := continue_commit_failure stTrial false { commitOk := false, newRev := "r1" }
    sessW contentsW tree0 idxW rfl rfl rfl (by decide) rfl rfl rfl rfl
  ⟨h.1, h.2.1⟩

/-- C1: for every successful `continue` invocation, every path in the
deleted set is absent from the final working tree and from the tree of
the resulting commit; every other path in `changedPaths` is committed
with content byte-for-byte equal to the content captured from the
trial-merge working tree; and whenever a capture happened, it happened
strictly before the trial merge was discarded. -/
theorem continue_deletion_correctness (st : RepoState) (nv : Bool) (env : ContEnv)
    (st' : RepoState) (tr : List Event)
    (h : continueAnticipate st nv env = (.ok, st', tr)) :
    (∀ p ∈ trialDeleted st,
      lookupA st'.wtree p = none ∧
      ∀ t, lookupA st'.commits st'.headRev = some t → lookupA t p = none) ∧
    (∀ p ∈ trialChanged st, p ∉ trialDeleted st →
      ∀ t, lookupA st'.commits st'.headRev = some t → lookupA t p = lookupA st.wtree p) ∧
    (Event.evCapture ∈ tr →
      Event.evAbortMerge ∈ tr ∧ evIndex tr .evCapture < evIndex tr .evAbortMerge) := by
  simp only [continueAnticipate] at h
  split at h
  · simp at h
  split at h
  · simp at h
  split at h
  · simp at h
  rename_i sess heqs
  split at h
  · -- no-op branch: nothing changed, hence nothing deleted, no capture
    rename_i hemp
    have hnil : trialChanged st = [] := by
      cases hl : trialChanged st with
      | nil => rfl
      | cons a l => rw [hl] at hemp; simp at hemp
    have hdel : trialDeleted st = [] := by
      simp [trialDeleted, deletedOf, hnil]
    simp only [Prod.mk.injEq] at h
    obtain ⟨-, rfl, rfl⟩ := h
    refine ⟨?_, ?_, ?_⟩
    · intro p hp
      rw [hdel] at hp
      exact absurd hp (List.not_mem_nil _)
    · intro p hp
      rw [hnil] at hp
      exact absurd hp (List.not_mem_nil _)
    · intro hc
      exact absurd hc (by decide)
  rename_i hemp
  split at h
  · simp at h
  rename_i contents heqc
  split at h
  · simp at h
  rename_i tree heqt
  split at h
  · simp at h
  rename_i idx heqst
  split at h
  · -- successful commit branch
    rename_i hok
    simp only [Prod.mk.injEq] at h
    obtain ⟨-, rfl, rfl⟩ := h
    have hkeys := captureContents_keys st.wtree _ _ heqc
    have hcons := captureContents_consistent st.wtree _ _ heqc
    have hstage := stageAll_lookup (removeAll (writeBack tree contents) (trialDeleted st))
      (trialDeleted st) (trialChanged st) tree idx heqst
    refine ⟨?_, ?_, ?_⟩
    · intro p hp
      have hpc : p ∈ trialChanged st := (List.mem_filter.mp hp).1
      constructor
      · show lookupA (removeAll (writeBack tree contents) (trialDeleted st)) p = none
        exact removeAll_lookup_mem _ _ _ hp
      · intro t ht
        have ht' : some idx = some t := by
          simpa [afterWriteBack, insertA] using ht
        obtain rfl := Option.some.inj ht'
        rw [hstage p, if_pos hpc, if_pos hp]
    · intro p hpc hpd t ht
      have ht' : some idx = some t := by
        simpa [afterWriteBack, insertA] using ht
      obtain rfl := Option.some.inj ht'
      rw [hstage p, if_pos hpc, if_neg hpd,
        removeAll_lookup_notmem _ _ _ hpd]
      have hmemk : p ∈ contents.map Prod.fst := by
        rw [hkeys]
        exact List.mem_filter.mpr ⟨hpc, by simpa using hpd⟩
      exact writeBack_lookup_mem st.wtree contents tree p hcons hmemk
    · intro hc
      exact ⟨by decide, by decide⟩
  · simp at h

/-- Witness for C1: the concrete trial-merge state committed successfully;
the deleted path `d` is absent from the final tree and commit, and the
modified path `a` is committed with its captured content. -/
theorem continue_deletion_correctness_witness :
    lookupA (continueAnticipate stTrial false envCont0).2.1.wtree "d" = none ∧
    (∀ t, lookupA (continueAnticipate stTrial false envCont0).2.1.commits
        (continueAnticipate stTrial false envCont0).2.1.headRev = some t →
      lookupA t "a" = lookupA stTrial.wtree "a") :=
  have h := continue_deletion_correctness stTrial false envCont0
    (continueAnticipate stTrial false envCont0).2.1
    (continueAnticipate stTrial false envCont0).2.2
    rfl
  ⟨(h.1 "d" (by decide)).1, h.2.1 "a" (by decide) (by decide)⟩

/-- Witness for C6: a concrete conflicting start, a user resolution of
the conflicted file, then abort; the working tree and revision are back
to the pre-start state. -/
theorem abort_restores_prestart_witness :
    (abortAnticipate (userEdit (startAnticipate stIdle "main" envStart0).2.1
        [("a", "userfix"), ("d", "x")] [("a", "userfix"), ("d", "x")] [] true)).1 = .ok ∧
    (abortAnticipate (userEdit (startAnticipate stIdle "main" envStart0).2.1
        [("a", "userfix"), ("d", "x")] [("a", "userfix"), ("d", "x")] [] true)).2.1.wtree
      = stIdle.wtree ∧
    (abortAnticipate (userEdit (startAnticipate stIdle "main" envStart0).2.1
        [("a", "userfix"), ("d", "x")] [("a", "userfix"), ("d", "x")] [] true)).2.1.headRev
      = stIdle.headRev ∧
    (abortAnticipate (userEdit (startAnticipate stIdle "main" envStart0).2.1
        [("a", "userfix"), ("d", "x")] [("a", "userfix"), ("d", "x")] [] true)).2.1.store
      = none :=
  have h := abort_restores_prestart stIdle "main" envStart0
    [("a", "userfix"), ("d", "x")] [("a", "userfix"), ("d", "x")] [] true
    "t7" tree0
    (startAnticipate stIdle "main" envStart0).1
    (startAnticipate stIdle "main" envStart0).2.1
    (startAnticipate stIdle "main" envStart0).2.2
    rfl (by decide) (by decide) rfl rfl rfl (by decide) (by decide) rfl
  ⟨h.2.1, h.2.2.1, h.2.2.2.2.1, h.2.2.2.2.2.1⟩

end GitAnticipate
